import Mathlib

/-!
Verification development for the job-tracker application/resume data store.

The store persists two record types (`ResumeVersion`, `JobApplication`) and
exposes CRUD-style operations.  The Lean definitions below are a shallow
embedding of the Python source:

* `src/models.py`   — the two table row types and the creation payloads;
* `src/database.py` — the `DatabaseManager` operations (each one is a single
  transaction: the embedding returns the post-commit store on success and the
  unmodified store on rollback);
* `src/server.py`   — `parse_date` and the `update_application_status` tool
  handler, each of which holds logic of its own beyond delegating to the store.

Timestamp columns (`created_at`, `updated_at`) are not modelled: no verified
property mentions them.  Database sessions are modelled by explicit state
passing: an operation takes the current store and returns the next store
together with its result; a rolled-back transaction returns the input store.
-/

namespace JobTracker

/-- Calendar date, modelling Python `datetime.date` values as used by the
server: a year/month/day triple.  Validity (month in range, day in range for
the month) is enforced where the Python `date` constructor would raise. -/
structure Date where
  year : Nat
  month : Nat
  day : Nat
deriving DecidableEq, Repr

/-- Date comparison (Python `date` orders lexicographically on
year/month/day); used for the `ORDER BY application_date DESC` reads. -/
def dateLe (a b : Date) : Bool :=
  Nat.blt a.year b.year ||
    (a.year == b.year &&
      (Nat.blt a.month b.month || (a.month == b.month && Nat.ble a.day b.day)))

/-- Row of the `resume_versions` table (`src/models.py`, class
`ResumeVersion`).  `name` carries a UNIQUE constraint, checked at commit time
by the embedding of `add_resume_version`. -/
structure ResumeVersion where
  id : Nat
  name : String
  file_path : Option String
  content : Option String
  description : Option String
  is_default : Bool
deriving DecidableEq, Repr

/-- Creation payload for a resume (`src/models.py`, class
`ResumeVersionCreate`). -/
structure ResumeVersionCreate where
  name : String
  file_path : Option String := none
  content : Option String := none
  description : Option String := none
  is_default : Bool := false
deriving DecidableEq, Repr

/-- Row of the `job_applications` table (`src/models.py`, class
`JobApplication`).  `resume_version_id` is the nullable foreign key into
`resume_versions`. -/
structure JobApplication where
  id : Nat
  job_title : String
  company_name : String
  application_date : Date
  status : String
  job_url : Option String
  salary_range : Option String
  location : Option String
  job_source : Option String
  recruiter_name : Option String
  recruiter_email : Option String
  next_followup_date : Option Date
  notes : Option String
  resume_version_id : Option Nat
deriving DecidableEq, Repr

/-- Creation payload for an application (`src/models.py`, class
`JobApplicationCreate`).  `resume_version_name` is resolved to a foreign key
by `add_job_application`. -/
structure JobApplicationCreate where
  job_title : String
  company_name : String
  application_date : Date
  status : String := "applied"
  job_url : Option String := none
  salary_range : Option String := none
  location : Option String := none
  job_source : Option String := none
  recruiter_name : Option String := none
  recruiter_email : Option String := none
  next_followup_date : Option Date := none
  notes : Option String := none
  resume_version_name : Option String := none
deriving DecidableEq, Repr

/-- Distinguishable failure outcomes of store operations (spec §7).  In the
source, `duplicateName` is the UNIQUE-constraint `SQLAlchemyError` surfaced by
`add_resume_version` (recognised by the dispatcher's "unique constraint"
check), and `notFound` is the distinct not-found reply of
`update_application_status`. -/
inductive DBError where
  | duplicateName
  | notFound
deriving DecidableEq, Repr

/-- The persistent store: both tables plus the id sequences.  Rows are kept in
insertion order; the primary keys are store-assigned from the counters. -/
structure DB where
  resumes : List ResumeVersion
  apps : List JobApplication
  next_resume_id : Nat
  next_app_id : Nat
deriving DecidableEq, Repr

/-- The store right after `create_tables` on a fresh database. -/
def emptyDB : DB := ⟨[], [], 1, 1⟩

/-- Python truthiness of an optional string argument (`if x:`): `None` and
the empty string are falsy.  `add_job_application`, `search_applications` and
the `update_application_status` handler all branch on it. -/
def optTruthy : Option String → Bool
  | none => false
  | some s => !s.isEmpty

/-- One row of the `UPDATE resume_versions SET is_default = false` statement. -/
def clearDefaultFlag (r : ResumeVersion) : ResumeVersion :=
  { r with is_default := false }

/-- The row inserted by `add_resume_version` (`ResumeVersion(**resume_data.dict())`
with the store-assigned primary key). -/
def newResumeFrom (db : DB) (rd : ResumeVersionCreate) : ResumeVersion :=
  { id := db.next_resume_id
    name := rd.name
    file_path := rd.file_path
    content := rd.content
    description := rd.description
    is_default := rd.is_default }

/-- `DatabaseManager.add_resume_version` (`src/database.py` lines 29–46).
Within one transaction: if the payload is flagged default, first clear
`is_default` on every row; then insert the new row.  The commit fails on the
UNIQUE name constraint when a row with that name already exists, and the
`except` branch rolls the whole transaction back — including the clearing
update — so the store is returned unchanged with the error. -/
def add_resume_version (db : DB) (rd : ResumeVersionCreate) :
    DB × Except DBError ResumeVersion :=
  if db.resumes.any (fun s => s.name == rd.name) then
    (db, .error .duplicateName)
  else
    let base := if rd.is_default then db.resumes.map clearDefaultFlag else db.resumes
    let r := newResumeFrom db rd
    ({ db with resumes := base ++ [r], next_resume_id := db.next_resume_id + 1 },
     .ok r)

/-- `DatabaseManager.get_default_resume`: first row with `is_default = true`,
or none (`.filter(is_default == True).first()`). -/
def get_default_resume (db : DB) : Option ResumeVersion :=
  db.resumes.find? (fun r => r.is_default)

/-- `DatabaseManager.get_resume_by_name`: first row with the given name, or
none (`.filter(name == name).first()`). -/
def get_resume_by_name (db : DB) (name : String) : Option ResumeVersion :=
  db.resumes.find? (fun r => r.name == name)

/-- Set `is_default := true` on the first row whose name matches; `none` when
no row matches.  This is the `resume.is_default = True` write of
`set_resume_as_default` applied to the session state after the clearing
update. -/
def setFlagOnFirst (name : String) : List ResumeVersion → Option (List ResumeVersion)
  | [] => none
  | r :: rest =>
    if r.name == name then some ({ r with is_default := true } :: rest)
    else (setFlagOnFirst name rest).map (r :: ·)

/-- `DatabaseManager.set_resume_as_default` (`src/database.py` lines 72–92).
Within one transaction: clear `is_default` on all rows, then set it on the row
with the given name and commit, returning `true`; when no row has that name
the transaction is rolled back — undoing the clearing update — and `false` is
returned with the store unchanged. -/
def set_resume_as_default (db : DB) (resume_name : String) : DB × Bool :=
  match setFlagOnFirst resume_name (db.resumes.map clearDefaultFlag) with
  | some rs => ({ db with resumes := rs }, true)
  | none => (db, false)

/-- The resume-binding step of `add_job_application` (`src/database.py` lines
99–108): when the payload's `resume_version_name` is truthy, look the name up
and fall back to the default resume when the lookup misses; otherwise use the
default resume when one exists. -/
def resolve_resume_version (db : DB) (ad : JobApplicationCreate) :
    Option ResumeVersion :=
  if optTruthy ad.resume_version_name then
    match get_resume_by_name db (ad.resume_version_name.getD "") with
    | some r => some r
    | none => get_default_resume db
  else
    get_default_resume db

/-- The row inserted by `add_job_application`
(`JobApplication(**app_dict)` after popping `resume_version_name`, then
`application.resume_version_id = resume_version.id` when a resume resolved). -/
def newApplicationFrom (db : DB) (ad : JobApplicationCreate)
    (rv : Option ResumeVersion) : JobApplication :=
  { id := db.next_app_id
    job_title := ad.job_title
    company_name := ad.company_name
    application_date := ad.application_date
    status := ad.status
    job_url := ad.job_url
    salary_range := ad.salary_range
    location := ad.location
    job_source := ad.job_source
    recruiter_name := ad.recruiter_name
    recruiter_email := ad.recruiter_email
    next_followup_date := ad.next_followup_date
    notes := ad.notes
    resume_version_id := rv.map (fun r => r.id) }

/-- `DatabaseManager.add_job_application` (`src/database.py` lines 95–131):
resolve the resume binding, insert the new row, commit, and return the created
record. -/
def add_job_application (db : DB) (ad : JobApplicationCreate) :
    DB × JobApplication :=
  let app := newApplicationFrom db ad (resolve_resume_version db ad)
  ({ db with apps := db.apps ++ [app], next_app_id := db.next_app_id + 1 }, app)

/-- The `joinedload(JobApplication.resume_version)` relationship resolution:
the resume row referenced by the application's foreign key, if any. -/
def resolveResume (db : DB) (a : JobApplication) : Option ResumeVersion :=
  a.resume_version_id.bind (fun i => db.resumes.find? (fun r => r.id == i))

/-- ASCII lower-casing of one character (the fragment of Python `str.lower`
and of the SQL `ILIKE` case fold that the verified properties exercise):
each of the twenty-six upper-case letters maps to its lower-case form and
every other character to itself. -/
def charToLower (c : Char) : Char :=
  match c with
  | 'A' => 'a' | 'B' => 'b' | 'C' => 'c' | 'D' => 'd' | 'E' => 'e'
  | 'F' => 'f' | 'G' => 'g' | 'H' => 'h' | 'I' => 'i' | 'J' => 'j'
  | 'K' => 'k' | 'L' => 'l' | 'M' => 'm' | 'N' => 'n' | 'O' => 'o'
  | 'P' => 'p' | 'Q' => 'q' | 'R' => 'r' | 'S' => 's' | 'T' => 't'
  | 'U' => 'u' | 'V' => 'v' | 'W' => 'w' | 'X' => 'x' | 'Y' => 'y'
  | 'Z' => 'z'
  | c => c

/-- `s.lower()` over the ASCII range. -/
def pyLower (s : String) : String :=
  ⟨s.data.map charToLower⟩

/-- Bool-valued infix test on lists (the needle occurs as a contiguous
sublist of the haystack): plain substring containment, as worded by the
spec's description of the search. -/
def charsContain (needle : List Char) : List Char → Bool
  | [] => needle.isEmpty
  | c :: rest => needle.isPrefixOf (c :: rest) || charsContain needle rest

/-- The spec's wording of the search condition — the column "contains the
given substring case-insensitively" — written from those words for
comparison with the source's `ILIKE` semantics (`ilikeContains`).  The two
coincide exactly when the needle is free of the SQL wildcard characters. -/
def icontains (hay needle : String) : Bool :=
  charsContain (pyLower needle).data (pyLower hay).data

/-- SQL `LIKE` pattern matching over character lists (PostgreSQL semantics,
the backend used by the source): `%` matches any sequence, `_` matches
exactly one character, and a backslash escapes the following character; any
other pattern character matches itself.  A trailing lone backslash (an error
in PostgreSQL) matches nothing; it cannot arise from the patterns the store
builds, which always end in `%`. -/
def likeMatch : List Char → List Char → Bool
  | [], s => s.isEmpty
  | '\\' :: rest, s =>
    match rest, s with
    | x :: ps, c :: cs => x == c && likeMatch ps cs
    | _, _ => false
  | '%' :: ps, s => s.tails.any (fun t => likeMatch ps t)
  | '_' :: ps, s =>
    match s with
    | [] => false
    | _ :: cs => likeMatch ps cs
  | p :: ps, s =>
    match s with
    | [] => false
    | c :: cs => p == c && likeMatch ps cs

/-- `column ILIKE '%' + needle + '%'` as issued by `search_applications`
(`.ilike(f"%...%")` with the argument interpolated): case-insensitive `LIKE`
against the pattern that wraps the user-supplied needle in `%`, so `%` and
`_` inside the needle act as wildcards, not literals. -/
def ilikeContains (hay needle : String) : Bool :=
  likeMatch ('%' :: ((pyLower needle).data ++ ['%'])) (pyLower hay).data

/-- The filter applied by `search_applications`: an `ILIKE` condition per
argument, added only when the argument is truthy (`if company_name:` /
`if job_title:`), with AND semantics. -/
def matchesSearch (company_name job_title : Option String)
    (a : JobApplication) : Bool :=
  (if optTruthy company_name then
     ilikeContains a.company_name (company_name.getD "")
   else true) &&
  (if optTruthy job_title then ilikeContains a.job_title (job_title.getD "")
   else true)

/-- The `ORDER BY application_date DESC` comparator: earlier rows of the
result have later-or-equal dates. -/
def appDateGe (x y : JobApplication) : Bool :=
  dateLe y.application_date x.application_date

/-- `DatabaseManager.search_applications` (`src/database.py` lines 163–176):
filter by the truthy arguments, order by application date descending, and
return each row with its `resume_version` relationship eagerly resolved. -/
def search_applications (db : DB) (company_name job_title : Option String) :
    List (JobApplication × Option ResumeVersion) :=
  (((db.apps.filter (matchesSearch company_name job_title)).mergeSort appDateGe).map
    (fun a => (a, resolveResume db a)))

/-- The methods defined on class `DatabaseManager` in `src/database.py`,
transcribed in source order: the complete public surface of the store. -/
def databaseManagerMethods : List String :=
  ["__init__", "create_tables", "get_session",
   "add_resume_version", "get_default_resume", "get_resume_by_name",
   "list_resumes", "set_resume_as_default",
   "add_job_application", "get_application_with_resume",
   "get_all_applications_with_resumes", "get_applications_by_status",
   "search_applications"]

/-- The note-appending step of the `update_application_status` handler
(`src/server.py` lines 240–244): with a truthy `notes` argument, append
`"\n[today] note"` to truthy existing notes, else start the notes at
`"[today] note"`; with a falsy argument leave the notes alone.  `today`
stands for the current date as rendered by `strftime`, i.e. `YYYY-MM-DD`. -/
def appendNote (old : Option String) (note : String) (today : String) :
    Option String :=
  if note.isEmpty then old
  else
    match old with
    | some s =>
      if s.isEmpty then some ("[" ++ today ++ "] " ++ note)
      else some (s ++ "\n[" ++ today ++ "] " ++ note)
    | none => some ("[" ++ today ++ "] " ++ note)

/-- The per-row mutation performed by the `update_application_status` handler
on the loaded application: set the status, append the note. -/
def updateFn (newStatus note today : String) (a : JobApplication) :
    JobApplication :=
  { a with status := newStatus, notes := appendNote a.notes note today }

/-- Apply `f` to the first list element with the given application id,
mirroring the mutation of the row returned by `.filter(id == app_id).first()`. -/
def replaceFirstById (appId : Nat) (f : JobApplication → JobApplication) :
    List JobApplication → List JobApplication
  | [] => []
  | a :: rest =>
    if a.id == appId then f a :: rest
    else a :: replaceFirstById appId f rest

/-- The `update_application_status` tool handler (`src/server.py` lines
225–256): load the application by id; when absent, reply with the distinct
not-found outcome (modelled as `DBError.notFound`) and leave the store
untouched; otherwise set the status, append the dated note when one is given,
and commit. -/
def update_application_status (db : DB) (appId : Nat)
    (newStatus note today : String) : DB × Except DBError JobApplication :=
  match db.apps.find? (fun a => a.id == appId) with
  | none => (db, .error .notFound)
  | some a =>
    ({ db with apps := replaceFirstById appId (updateFn newStatus note today) db.apps },
     .ok (updateFn newStatus note today a))

/-- The spec's resume-resolution rule, written from its words for comparison
with `add_job_application`: "if a resume name is supplied and found, bind it;
if supplied but not found, fall back to the current default resume; if no
name supplied, bind the current default resume if one exists, else leave
unbound". -/
def specResumeBinding (db : DB) (ad : JobApplicationCreate) : Option Nat :=
  match ad.resume_version_name with
  | some n =>
    match get_resume_by_name db n with
    | some r => some r.id
    | none => (get_default_resume db).map (fun r => r.id)
  | none => (get_default_resume db).map (fun r => r.id)

/-- The amended resolution rule: as `specResumeBinding`, except that a
supplied empty-string name is treated as if no name were supplied (the code
tests Python truthiness of the argument, not its presence). -/
def specResumeBindingAmended (db : DB) (ad : JobApplicationCreate) : Option Nat :=
  match ad.resume_version_name with
  | some n =>
    if n = "" then (get_default_resume db).map (fun r => r.id)
    else
      match get_resume_by_name db n with
      | some r => some r.id
      | none => (get_default_resume db).map (fun r => r.id)
  | none => (get_default_resume db).map (fun r => r.id)

/-- One store mutation drawn from the operations the single-default invariant
quantifies over. -/
inductive Op where
  | addResume (rd : ResumeVersionCreate)
  | setDefault (name : String)
deriving DecidableEq, Repr

/-- Run one operation against the store, keeping the post-transaction state. -/
def applyOp (db : DB) : Op → DB
  | .addResume rd => (add_resume_version db rd).1
  | .setDefault n => (set_resume_as_default db n).1

/-- Run a sequence of operations from a given store. -/
def runOps (db : DB) (ops : List Op) : DB :=
  ops.foldl applyOp db

/-- Number of rows of a resume list flagged as the default. -/
def defaultsIn (rs : List ResumeVersion) : Nat :=
  (rs.filter (fun r => r.is_default)).length

/-- Number of rows currently flagged as the default resume. -/
def countDefaults (db : DB) : Nat :=
  defaultsIn db.resumes

theorem clearDefaultFlag_not_default (rs : List ResumeVersion) :
    ∀ r ∈ rs.map clearDefaultFlag, r.is_default = false := by
  intro r hr
  rcases List.mem_map.mp hr with ⟨s, _, rfl⟩
  rfl

theorem clearDefaultFlag_name (r : ResumeVersion) :
    (clearDefaultFlag r).name = r.name := rfl

theorem defaultsIn_eq_zero {rs : List ResumeVersion}
    (h : ∀ r ∈ rs, r.is_default = false) : defaultsIn rs = 0 := by
  unfold defaultsIn
  have : rs.filter (fun r => r.is_default) = [] := by
    rw [List.filter_eq_nil_iff]
    intro a ha
    simp [h a ha]
  simp [this]

theorem defaultsIn_append (xs ys : List ResumeVersion) :
    defaultsIn (xs ++ ys) = defaultsIn xs + defaultsIn ys := by
  simp [defaultsIn, List.filter_append]

theorem setFlagOnFirst_eq_none {n : String} {rs : List ResumeVersion} :
    setFlagOnFirst n rs = none ↔ ∀ r ∈ rs, r.name ≠ n := by
  induction rs with
  | nil => simp [setFlagOnFirst]
  | cons r rest ih =>
    by_cases h : r.name = n
    · simp [setFlagOnFirst, h]
    · simp only [setFlagOnFirst, beq_iff_eq, if_neg h, Option.map_eq_none',
        List.mem_cons]
      constructor
      · intro h0 s hs
        rcases hs with hs | hs
        · subst hs; exact h
        · exact ih.mp h0 s hs
      · intro h0
        exact ih.mpr fun s hs => h0 s (Or.inr hs)

theorem setFlagOnFirst_defaults {n : String} :
    ∀ {rs rs' : List ResumeVersion}, (∀ r ∈ rs, r.is_default = false) →
      setFlagOnFirst n rs = some rs' → defaultsIn rs' = 1 := by
  intro rs
  induction rs with
  | nil => intro rs' _ h; simp [setFlagOnFirst] at h
  | cons r rest ih =>
    intro rs' hall h
    by_cases hn : r.name = n
    · simp only [setFlagOnFirst, beq_iff_eq, if_pos hn, Option.some_inj] at h
      subst h
      have hrest : defaultsIn rest = 0 :=
        defaultsIn_eq_zero fun s hs => hall s (List.mem_cons_of_mem r hs)
      simp [defaultsIn, List.filter_cons] at hrest ⊢
      simpa [defaultsIn] using hrest
    · simp only [setFlagOnFirst, beq_iff_eq, if_neg hn] at h
      rcases Option.map_eq_some'.mp h with ⟨rs₀, h0, rfl⟩
      have h1 : defaultsIn rs₀ = 1 :=
        ih (fun s hs => hall s (List.mem_cons_of_mem r hs)) h0
      have hr : r.is_default = false := hall r (List.mem_cons_self r rest)
      simp [defaultsIn, List.filter_cons, hr] at h1 ⊢
      simpa [defaultsIn] using h1

theorem setFlagOnFirst_only_name {n : String} :
    ∀ {rs rs' : List ResumeVersion}, (∀ r ∈ rs, r.is_default = false) →
      setFlagOnFirst n rs = some rs' →
      ∀ s ∈ rs', s.is_default = true → s.name = n := by
  intro rs
  induction rs with
  | nil => intro rs' _ h; simp [setFlagOnFirst] at h
  | cons r rest ih =>
    intro rs' hall h s hs hdef
    by_cases hn : r.name = n
    · simp only [setFlagOnFirst, beq_iff_eq, if_pos hn, Option.some_inj] at h
      subst h
      rcases List.mem_cons.mp hs with hs | hs
      · subst hs; exact hn
      · exact absurd hdef (by simp [hall s (List.mem_cons_of_mem r hs)])
    · simp only [setFlagOnFirst, beq_iff_eq, if_neg hn] at h
      rcases Option.map_eq_some'.mp h with ⟨rs₀, h0, rfl⟩
      rcases List.mem_cons.mp hs with hs | hs
      · subst hs
        exact absurd hdef (by simp [hall s (List.mem_cons_self s rest)])
      · exact ih (fun u hu => hall u (List.mem_cons_of_mem r hu)) h0 s hs hdef

theorem countDefaults_add_resume (db : DB) (rd : ResumeVersionCreate)
    (h : countDefaults db ≤ 1) :
    countDefaults (add_resume_version db rd).1 ≤ 1 := by
  unfold add_resume_version
  by_cases hdup : db.resumes.any (fun s => s.name == rd.name)
  · simpa [hdup] using h
  · have hdup' : (db.resumes.any fun s => s.name == rd.name) = false := by
      simpa using hdup
    by_cases hdef : rd.is_default
    · have h0 : defaultsIn (db.resumes.map clearDefaultFlag) = 0 :=
        defaultsIn_eq_zero (clearDefaultFlag_not_default db.resumes)
      have h1 : defaultsIn [newResumeFrom db rd] = 1 := by
        simp [defaultsIn, List.filter_cons, newResumeFrom, hdef]
      simp [hdup', hdef, countDefaults, defaultsIn_append, h0, h1]
    · have hdef' : rd.is_default = false := by simpa using hdef
      have h1 : defaultsIn [newResumeFrom db rd] = 0 := by
        simp [defaultsIn, List.filter_cons, newResumeFrom, hdef']
      simpa [hdup', hdef', countDefaults, defaultsIn_append, h1] using h

theorem countDefaults_set_default (db : DB) (n : String)
    (h : countDefaults db ≤ 1) :
    countDefaults (set_resume_as_default db n).1 ≤ 1 := by
  unfold set_resume_as_default
  cases hset : setFlagOnFirst n (db.resumes.map clearDefaultFlag) with
  | none => simpa using h
  | some rs =>
    have h1 : defaultsIn rs = 1 :=
      setFlagOnFirst_defaults (clearDefaultFlag_not_default db.resumes) hset
    simp [countDefaults, h1]

theorem countDefaults_applyOp (db : DB) (op : Op)
    (h : countDefaults db ≤ 1) : countDefaults (applyOp db op) ≤ 1 := by
  cases op with
  | addResume rd => exact countDefaults_add_resume db rd h
  | setDefault n => exact countDefaults_set_default db n h

theorem countDefaults_runOps (ops : List Op) :
    ∀ db : DB, countDefaults db ≤ 1 → countDefaults (runOps db ops) ≤ 1 := by
  induction ops with
  | nil => intro db h; simpa [runOps] using h
  | cons op rest ih =>
    intro db h
    have := ih (applyOp db op) (countDefaults_applyOp db op h)
    simpa [runOps, List.foldl_cons] using this

/-- Claim C1: after every sequence of `addResume`/`setDefaultResume`
operations starting from the empty store, at most one resume has
`is_default = true`; moreover a successful operation that sets a resume as
default leaves that resume's name as the only one carrying the flag (the
clearing of all other flags happens in the same transaction). -/
theorem c1_single_default_invariant :
    (∀ ops : List Op, countDefaults (runOps emptyDB ops) ≤ 1) ∧
    (∀ (db : DB) (rd : ResumeVersionCreate) (r : ResumeVersion),
      (add_resume_version db rd).2 = .ok r → rd.is_default = true →
      ∀ s ∈ (add_resume_version db rd).1.resumes,
        s.is_default = true → s.name = rd.name) ∧
    (∀ (db : DB) (n : String), (set_resume_as_default db n).2 = true →
      ∀ s ∈ (set_resume_as_default db n).1.resumes,
        s.is_default = true → s.name = n) := by
  refine ⟨fun ops => countDefaults_runOps ops emptyDB (by simp [emptyDB, countDefaults, defaultsIn]), ?_, ?_⟩
  · intro db rd r hok hdef s hs hsdef
    unfold add_resume_version at hok hs
    by_cases hdup : db.resumes.any (fun t => t.name == rd.name)
    · simp [hdup] at hok
    · simp only [Bool.not_eq_true] at hdup
      simp only [hdup, Bool.false_eq_true, if_false, hdef, if_true] at hs
      simp only [List.mem_append, List.mem_singleton] at hs
      rcases hs with hs | hs
      · exact absurd hsdef (by simp [clearDefaultFlag_not_default db.resumes s hs])
      · subst hs; rfl
  · intro db n htrue s hs hsdef
    unfold set_resume_as_default at htrue hs
    cases hset : setFlagOnFirst n (db.resumes.map clearDefaultFlag) with
    | none => simp [hset] at htrue
    | some rs =>
      simp only [hset] at hs
      exact setFlagOnFirst_only_name (clearDefaultFlag_not_default db.resumes)
        hset s hs hsdef

/-- Witness for C1 at concrete inputs: add "A" as default, then "B" as
default — at most one default remains; and after `setDefaultResume "A"` on
that store, only "A" carries the flag. -/
theorem c1_single_default_invariant_witness :
    (countDefaults (runOps emptyDB
        [Op.addResume { name := "A", is_default := true },
         Op.addResume { name := "B", is_default := true }]) ≤ 1) ∧
    (∀ s ∈ (set_resume_as_default
        (runOps emptyDB
          [Op.addResume { name := "A", is_default := true },
           Op.addResume { name := "B", is_default := true }]) "A").1.resumes,
      s.is_default = true → s.name = "A") :=
  ⟨c1_single_default_invariant.1 _,
   c1_single_default_invariant.2.2 _ "A" (by decide)⟩

/-- Claim C3: when a resume with the requested name already exists,
`add_resume_version` fails with the distinguishable duplicate-name error and
returns the store unchanged — the transaction's clearing update (performed
when the failed call requested `is_default = true`) is rolled back with it. -/
theorem c3_duplicate_name_rejection (db : DB) (rd : ResumeVersionCreate)
    (hdup : ∃ r ∈ db.resumes, r.name = rd.name) :
    add_resume_version db rd = (db, .error .duplicateName) := by
  rcases hdup with ⟨r, hr, hname⟩
  have hany : db.resumes.any (fun s => s.name == rd.name) = true :=
    List.any_eq_true.mpr ⟨r, hr, beq_iff_eq.mpr hname⟩
  simp [add_resume_version, hany]

/-- Witness for C3: a second add of "default" — flagged default, with
different content — fails with the duplicate-name error and leaves the store
(including the existing resume's attributes and flag) exactly as it was. -/
theorem c3_duplicate_name_rejection_witness :
    add_resume_version
      ⟨[⟨1, "default", none, some "v1", none, true⟩], [], 2, 1⟩
      { name := "default", content := some "v2", is_default := true } =
    (⟨[⟨1, "default", none, some "v1", none, true⟩], [], 2, 1⟩,
     .error .duplicateName) :=
  c3_duplicate_name_rejection _ _ (by decide)

theorem setFlagOnFirst_clear_none_iff (db : DB) (n : String) :
    setFlagOnFirst n (db.resumes.map clearDefaultFlag) = none ↔
      ∀ r ∈ db.resumes, r.name ≠ n := by
  rw [setFlagOnFirst_eq_none]
  constructor
  · intro h r hr
    have := h (clearDefaultFlag r) (List.mem_map_of_mem clearDefaultFlag hr)
    simpa [clearDefaultFlag] using this
  · intro h r hr
    rcases List.mem_map.mp hr with ⟨s, hs, rfl⟩
    simpa [clearDefaultFlag] using h s hs

/-- Claim C4: `set_resume_as_default` returns `true` exactly when a resume
with the given name exists; when none does, it returns `false` with the store
unchanged — the transaction's clearing of every default flag is rolled back,
so each resume keeps the flag it had before the call. -/
theorem c4_set_default_iff_exists (db : DB) (n : String) :
    ((set_resume_as_default db n).2 = true ↔ ∃ r ∈ db.resumes, r.name = n) ∧
    ((∀ r ∈ db.resumes, r.name ≠ n) → set_resume_as_default db n = (db, false)) := by
  cases hset : setFlagOnFirst n (db.resumes.map clearDefaultFlag) with
  | none =>
    have hno : ∀ r ∈ db.resumes, r.name ≠ n :=
      (setFlagOnFirst_clear_none_iff db n).mp hset
    refine ⟨?_, fun _ => by simp [set_resume_as_default, hset]⟩
    simp only [set_resume_as_default, hset]
    constructor
    · intro h; exact absurd h (by simp)
    · rintro ⟨r, hr, hname⟩; exact absurd hname (hno r hr)
  | some rs =>
    constructor
    · simp only [set_resume_as_default, hset]
      constructor
      · intro _
        by_contra hnot
        push_neg at hnot
        rw [(setFlagOnFirst_clear_none_iff db n).mpr hnot] at hset
        exact absurd hset (by simp)
      · intro _; trivial
    · intro hno
      rw [(setFlagOnFirst_clear_none_iff db n).mpr hno] at hset
      exact absurd hset (by simp)

/-- Witness for C4 at a concrete store: setting the missing name "zzz" as
default returns `false` and leaves a store holding a default resume "A" and a
non-default resume "B" exactly unchanged; and the returned flag matches
existence for both "A" and "zzz". -/
theorem c4_set_default_iff_exists_witness :
    ((set_resume_as_default
        ⟨[⟨1, "A", none, none, none, true⟩, ⟨2, "B", none, none, none, false⟩],
         [], 3, 1⟩ "zzz") =
      (⟨[⟨1, "A", none, none, none, true⟩, ⟨2, "B", none, none, none, false⟩],
        [], 3, 1⟩, false)) ∧
    ((set_resume_as_default
        ⟨[⟨1, "A", none, none, none, true⟩, ⟨2, "B", none, none, none, false⟩],
         [], 3, 1⟩ "A").2 = true) :=
  ⟨(c4_set_default_iff_exists _ "zzz").2 (by decide),
   (c4_set_default_iff_exists _ "A").1.mpr (by decide)⟩

/-- Claim C9: a successful `add_resume_version` with `is_default = false`
only appends the one new row — every previously existing resume, its
`is_default` flag included, and the applications table are left exactly as
they were. -/
theorem c9_add_resume_frame (db : DB) (rd : ResumeVersionCreate)
    (hdef : rd.is_default = false)
    (hfresh : ∀ r ∈ db.resumes, r.name ≠ rd.name) :
    add_resume_version db rd =
      ({ db with resumes := db.resumes ++ [newResumeFrom db rd],
                 next_resume_id := db.next_resume_id + 1 },
       .ok (newResumeFrom db rd)) := by
  have hany : db.resumes.any (fun s => s.name == rd.name) = false :=
    List.any_eq_false.mpr (fun r hr => by simp [hfresh r hr])
  simp [add_resume_version, hany, hdef]

/-- Witness for C9: adding non-default "B" next to default "A" appends the
one new row and leaves "A" (still flagged default) untouched. -/
theorem c9_add_resume_frame_witness :
    add_resume_version
      ⟨[⟨1, "A", none, none, none, true⟩], [], 2, 1⟩ { name := "B" } =
    (⟨[⟨1, "A", none, none, none, true⟩, ⟨2, "B", none, none, none, false⟩],
      [], 3, 1⟩,
     .ok ⟨2, "B", none, none, none, false⟩) :=
  c9_add_resume_frame _ _ rfl (by decide)

/-- Claim C2, counterexample: the spec's resolution rule ("if a resume name
is supplied and found, bind it") fails on the code for the supplied name `""`:
with a resume literally named `""` (id 1) and a default resume "D" (id 2) in
the store, the code binds the default (id 2) because `add_job_application`
tests Python truthiness of the argument — and the empty string is falsy —
while the rule as stated binds the resume named `""` (id 1). -/
theorem c2_resume_binding_counterexample :
    (add_job_application
        ⟨[⟨1, "", none, none, none, false⟩, ⟨2, "D", none, none, none, true⟩],
         [], 3, 1⟩
        { job_title := "X", company_name := "Y",
          application_date := ⟨2024, 1, 1⟩,
          resume_version_name := some "" }).2.resume_version_id = some 2 ∧
    specResumeBinding
        ⟨[⟨1, "", none, none, none, false⟩, ⟨2, "D", none, none, none, true⟩],
         [], 3, 1⟩
        { job_title := "X", company_name := "Y",
          application_date := ⟨2024, 1, 1⟩,
          resume_version_name := some "" } = some 1 ∧
    (add_job_application
        ⟨[⟨1, "", none, none, none, false⟩, ⟨2, "D", none, none, none, true⟩],
         [], 3, 1⟩
        { job_title := "X", company_name := "Y",
          application_date := ⟨2024, 1, 1⟩,
          resume_version_name := some "" }).2.resume_version_id ≠
      specResumeBinding
        ⟨[⟨1, "", none, none, none, false⟩, ⟨2, "D", none, none, none, true⟩],
         [], 3, 1⟩
        { job_title := "X", company_name := "Y",
          application_date := ⟨2024, 1, 1⟩,
          resume_version_name := some "" } := by
  refine ⟨rfl, rfl, ?_⟩
  decide

/-- Claim C2 as amended: the created application's resume binding follows the
spec's resolution rule, with a supplied empty-string name treated as if no
name were supplied (the code branches on truthiness of the argument): name
supplied and found — that resume; supplied (non-empty) but not found — the
current default, if any; otherwise — the current default, if any, else
unbound. -/
theorem c2_resume_binding_amended (db : DB) (ad : JobApplicationCreate) :
    (add_job_application db ad).2.resume_version_id =
      specResumeBindingAmended db ad := by
  have hres : (add_job_application db ad).2.resume_version_id =
      (resolve_resume_version db ad).map (fun r => r.id) := rfl
  rw [hres]
  unfold resolve_resume_version specResumeBindingAmended
  cases h : ad.resume_version_name with
  | none => simp [optTruthy]
  | some n =>
    by_cases he : n = ""
    · subst he
      have hemp : ("" : String).isEmpty = true := by decide
      simp [optTruthy, hemp]
    · have hne : n.isEmpty = false := by
        cases hh : n.isEmpty
        · rfl
        · exact absurd ((String.isEmpty_iff n).mp hh) he
      cases hg : get_resume_by_name db n with
      | some r => simp [optTruthy, hne, hg, he]
      | none => simp [optTruthy, hne, hg, he]

/-- Claim C5: on an existing application and a non-empty note,
`update_application_status` sets the status and appends the dated note to the
existing notes — `"\n[today] note"` after non-empty prior notes, which stay in
place, and `"[today] note"` from scratch when there were none. -/
theorem c5_status_update_appends (db : DB) (appId : Nat)
    (newStatus note today : String) (app : JobApplication)
    (hfind : db.apps.find? (fun a => a.id == appId) = some app)
    (hnote : note ≠ "") :
    (app.notes = none →
      update_application_status db appId newStatus note today =
        ({ db with apps :=
             replaceFirstById appId (updateFn newStatus note today) db.apps },
         .ok { app with status := newStatus,
                        notes := some ("[" ++ today ++ "] " ++ note) })) ∧
    (∀ s, app.notes = some s → s ≠ "" →
      update_application_status db appId newStatus note today =
        ({ db with apps :=
             replaceFirstById appId (updateFn newStatus note today) db.apps },
         .ok { app with status := newStatus,
                        notes := some (s ++ "\n[" ++ today ++ "] " ++ note) })) := by
  have hnoteb : note.isEmpty = false := by
    cases hh : note.isEmpty
    · rfl
    · exact absurd ((String.isEmpty_iff note).mp hh) hnote
  constructor
  · intro hnone
    simp [update_application_status, hfind, updateFn, appendNote, hnoteb, hnone]
  · intro s hs hsne
    have hsb : s.isEmpty = false := by
      cases hh : s.isEmpty
      · rfl
      · exact absurd ((String.isEmpty_iff s).mp hh) hsne
    simp [update_application_status, hfind, updateFn, appendNote, hnoteb, hs, hsb]

/-- Witness for C5: an application with notes "foo", updated to
"interviewing" with note "called back" on 2026-10-12, keeps "foo" and gains
the dated line, both in the store and in the returned record. -/
theorem c5_status_update_appends_witness :
    update_application_status
      ⟨[], [⟨1, "X", "Y", ⟨2024, 1, 1⟩, "applied", none, none, none, none,
            none, none, none, some "foo", none⟩], 1, 2⟩
      1 "interviewing" "called back" "2026-10-12" =
    (⟨[], [⟨1, "X", "Y", ⟨2024, 1, 1⟩, "interviewing", none, none, none, none,
           none, none, none, some "foo\n[2026-10-12] called back", none⟩], 1, 2⟩,
     .ok ⟨1, "X", "Y", ⟨2024, 1, 1⟩, "interviewing", none, none, none, none,
          none, none, none, some "foo\n[2026-10-12] called back", none⟩) := by
  have h := (c5_status_update_appends
      ⟨[], [⟨1, "X", "Y", ⟨2024, 1, 1⟩, "applied", none, none, none, none,
            none, none, none, some "foo", none⟩], 1, 2⟩
      1 "interviewing" "called back" "2026-10-12"
      ⟨1, "X", "Y", ⟨2024, 1, 1⟩, "applied", none, none, none, none,
       none, none, none, some "foo", none⟩
      rfl (by decide)).2 "foo" rfl (by decide)
  simpa [replaceFirstById, updateFn, appendNote] using h

/-- Claim C6: when no application carries the requested id,
`update_application_status` fails with the distinguishable not-found outcome
and no stored record is modified. -/
theorem c6_update_not_found (db : DB) (appId : Nat)
    (newStatus note today : String)
    (habsent : ∀ a ∈ db.apps, a.id ≠ appId) :
    update_application_status db appId newStatus note today =
      (db, .error .notFound) := by
  have hfind : db.apps.find? (fun a => a.id == appId) = none :=
    List.find?_eq_none.mpr (fun a ha => by simp [habsent a ha])
  simp [update_application_status, hfind]

/-- Witness for C6: updating id 99 in a store whose only application has id 1
fails with the not-found outcome and returns the store unchanged. -/
theorem c6_update_not_found_witness :
    update_application_status
      ⟨[], [⟨1, "X", "Y", ⟨2024, 1, 1⟩, "applied", none, none, none, none,
            none, none, none, none, none⟩], 1, 2⟩
      99 "rejected" "n" "2026-10-12" =
    (⟨[], [⟨1, "X", "Y", ⟨2024, 1, 1⟩, "applied", none, none, none, none,
           none, none, none, none, none⟩], 1, 2⟩,
     .error .notFound) :=
  c6_update_not_found _ 99 "rejected" "n" "2026-10-12" (by decide)

/-- Claim C8, counterexample: the store's public surface — the methods of
class `DatabaseManager`, transcribed in `databaseManagerMethods` — contains
no get-or-create-default-resume operation under either naming convention, so
the claimed `getOrCreateDefaultResume()` does not exist in the code. -/
theorem c8_no_get_or_create_default :
    "get_or_create_default_resume" ∉ databaseManagerMethods ∧
    "getOrCreateDefaultResume" ∉ databaseManagerMethods := by
  decide

/-- Claim C8 as amended: the store provides only `get_default_resume`, which
returns a stored resume flagged `is_default = true` when one exists — it
cannot answer `none` while a flagged resume is stored — and `none` when no
stored resume carries the flag; no operation creates a placeholder "default"
resume (server startup deliberately skips automatic default-resume
creation). -/
theorem c8_get_default_resume_spec (db : DB) :
    (∀ r, get_default_resume db = some r →
      r ∈ db.resumes ∧ r.is_default = true) ∧
    ((∀ r ∈ db.resumes, r.is_default = false) →
      get_default_resume db = none) ∧
    ((∃ r ∈ db.resumes, r.is_default = true) →
      ∃ r, get_default_resume db = some r ∧ r ∈ db.resumes ∧
        r.is_default = true) := by
  refine ⟨?_, ?_, ?_⟩
  · intro r h
    exact ⟨List.mem_of_find?_eq_some h, List.find?_some h⟩
  · intro h
    exact List.find?_eq_none.mpr (fun a ha => by simp [h a ha])
  · rintro ⟨r, hr, hdef⟩
    have hsome : (db.resumes.find? (fun s => s.is_default)).isSome = true :=
      List.find?_isSome.mpr ⟨r, hr, hdef⟩
    rcases Option.isSome_iff_exists.mp hsome with ⟨r', hr'⟩
    exact ⟨r', hr', List.mem_of_find?_eq_some hr', List.find?_some hr'⟩

/-- Witness for C8's amended statement at concrete stores: with default "A"
present, `get_default_resume` returns a stored default row (and cannot be
`none`); with only non-default rows it returns none. -/
theorem c8_get_default_resume_spec_witness :
    ((⟨1, "A", none, none, none, true⟩ : ResumeVersion) ∈
        (⟨[⟨1, "A", none, none, none, true⟩], [], 2, 1⟩ : DB).resumes ∧
      (⟨1, "A", none, none, none, true⟩ : ResumeVersion).is_default = true) ∧
    get_default_resume ⟨[⟨1, "B", none, none, none, false⟩], [], 2, 1⟩ = none ∧
    (∃ r, get_default_resume
        ⟨[⟨1, "B", none, none, none, false⟩, ⟨2, "A", none, none, none, true⟩],
         [], 3, 1⟩ = some r ∧
      r ∈ (⟨[⟨1, "B", none, none, none, false⟩,
             ⟨2, "A", none, none, none, true⟩], [], 3, 1⟩ : DB).resumes ∧
      r.is_default = true) :=
  ⟨(c8_get_default_resume_spec _).1 _ rfl,
   (c8_get_default_resume_spec _).2.1 (by decide),
   (c8_get_default_resume_spec _).2.2 (by decide)⟩

theorem charsContain_nil (l : List Char) : charsContain [] l = true := by
  cases l <;> simp [charsContain, List.isPrefixOf]

theorem icontains_empty (field : String) : icontains field "" = true := by
  have h : (pyLower "").data = [] := by decide
  unfold icontains
  rw [h]
  exact charsContain_nil _

theorem dateLe_trans {a b c : Date} (h1 : dateLe a b = true)
    (h2 : dateLe b c = true) : dateLe a c = true := by
  simp only [dateLe, Bool.or_eq_true, Bool.and_eq_true, Nat.blt_eq,
    Nat.ble_eq, beq_iff_eq] at h1 h2 ⊢
  omega

theorem dateLe_total (a b : Date) : (dateLe a b || dateLe b a) = true := by
  simp only [dateLe, Bool.or_eq_true, Bool.and_eq_true, Nat.blt_eq,
    Nat.ble_eq, beq_iff_eq]
  omega

theorem appDateGe_trans (a b c : JobApplication) (h1 : appDateGe a b = true)
    (h2 : appDateGe b c = true) : appDateGe a c = true :=
  dateLe_trans h2 h1

theorem appDateGe_total (a b : JobApplication) :
    (appDateGe a b || appDateGe b a) = true :=
  dateLe_total b.application_date a.application_date

theorem charToLower_meta (c : Char) :
    (charToLower c = '%' → c = '%') ∧ (charToLower c = '_' → c = '_') ∧
    (charToLower c = '\\' → c = '\\') := by
  unfold charToLower
  split <;> refine ⟨fun h => ?_, fun h => ?_, fun h => ?_⟩ <;>
    first
      | exact h
      | exact absurd h (by decide)

theorem tails_any_isPrefixOf (lits : List Char) :
    ∀ s : List Char,
      s.tails.any (fun t => lits.isPrefixOf t) = charsContain lits s := by
  intro s
  induction s with
  | nil => cases lits <;> simp [charsContain, List.isPrefixOf]
  | cons c cs ih =>
    rw [List.tails_cons, List.any_cons, ih]
    rfl

theorem likeMatch_trailing_percent (lits : List Char)
    (hmeta : ∀ c ∈ lits, c ≠ '%' ∧ c ≠ '_' ∧ c ≠ '\\') :
    ∀ t : List Char, likeMatch (lits ++ ['%']) t = lits.isPrefixOf t := by
  induction lits with
  | nil =>
    intro t
    have hall : ∀ u : List Char, u.tails.any (fun v => likeMatch [] v) = true := by
      intro u
      induction u with
      | nil => simp [likeMatch]
      | cons x xs ihx => simp [List.tails_cons, List.any_cons, ihx]
    simp only [List.nil_append, List.isPrefixOf]
    rw [show likeMatch ['%'] t = t.tails.any (fun v => likeMatch [] v) by
      simp [likeMatch]]
    exact hall t
  | cons l lits' ih =>
    intro t
    have hl := hmeta l (List.mem_cons_self l lits')
    have ih' := ih fun c hc => hmeta c (List.mem_cons_of_mem l hc)
    cases t with
    | nil => simp [likeMatch, hl.1, hl.2.1, hl.2.2, List.isPrefixOf]
    | cons c cs => simp [likeMatch, hl.1, hl.2.1, hl.2.2, List.isPrefixOf, ih']

theorem ilike_eq_icontains_of_noMeta (hay needle : String)
    (h : ∀ ch ∈ needle.data, ch ≠ '%' ∧ ch ≠ '_' ∧ ch ≠ '\\') :
    ilikeContains hay needle = icontains hay needle := by
  have hmap : ∀ ch ∈ (pyLower needle).data,
      ch ≠ '%' ∧ ch ≠ '_' ∧ ch ≠ '\\' := by
    intro ch hch
    rcases List.mem_map.mp hch with ⟨c0, hc0, rfl⟩
    have h0 := h c0 hc0
    have hp := charToLower_meta c0
    exact ⟨fun he => h0.1 (hp.1 he), fun he => h0.2.1 (hp.2.1 he),
      fun he => h0.2.2 (hp.2.2 he)⟩
  show likeMatch ('%' :: ((pyLower needle).data ++ ['%'])) (pyLower hay).data
      = charsContain (pyLower needle).data (pyLower hay).data
  have hstep : likeMatch ('%' :: ((pyLower needle).data ++ ['%']))
      (pyLower hay).data =
      ((pyLower hay).data.tails.any
        (fun t => likeMatch ((pyLower needle).data ++ ['%']) t)) := by
    simp [likeMatch]
  rw [hstep]
  have hlit := likeMatch_trailing_percent (pyLower needle).data hmap
  simp only [hlit]
  exact tails_any_isPrefixOf (pyLower needle).data (pyLower hay).data

theorem ilikeContains_empty (field : String) : ilikeContains field "" = true := by
  have h := ilike_eq_icontains_of_noMeta field ""
    (by intro ch hch; simp at hch)
  rw [h]
  exact icontains_empty field

theorem truthy_filter_iff (f : String → String → Bool) (arg : Option String)
    (field : String) (hemp : f field "" = true) :
    ((if optTruthy arg then f field (arg.getD "") else true) = true ↔
      ∀ s, arg = some s → f field s = true) := by
  cases arg with
  | none => simp [optTruthy]
  | some s =>
    by_cases he : s = ""
    · subst he
      have h0 : optTruthy (some "") = false := by decide
      simp only [h0, Bool.false_eq_true, if_false, true_iff]
      intro s' hs'
      injection hs' with h1
      subst h1
      exact hemp
    · have h1 : optTruthy (some s) = true := by
        have hh : s.isEmpty = false := by
          cases hh : s.isEmpty
          · rfl
          · exact absurd ((String.isEmpty_iff s).mp hh) he
        simp [optTruthy, hh]
      simp only [h1, if_true, Option.getD_some]
      constructor
      · intro h s' hs'
        injection hs' with h2
        subst h2
        exact h
      · intro h; exact h s rfl

theorem matchesSearch_iff (c t : Option String) (a : JobApplication) :
    matchesSearch c t a = true ↔
      ((∀ s, c = some s → ilikeContains a.company_name s = true) ∧
       (∀ s, t = some s → ilikeContains a.job_title s = true)) := by
  unfold matchesSearch
  rw [Bool.and_eq_true,
    truthy_filter_iff ilikeContains c a.company_name
      (ilikeContains_empty a.company_name),
    truthy_filter_iff ilikeContains t a.job_title
      (ilikeContains_empty a.job_title)]

theorem mem_search_applications (db : DB) (c t : Option String)
    (a : JobApplication) (r : Option ResumeVersion) :
    ((a, r) ∈ search_applications db c t) ↔
      (a ∈ db.apps ∧ matchesSearch c t a = true ∧ r = resolveResume db a) := by
  unfold search_applications
  rw [List.mem_map]
  constructor
  · rintro ⟨x, hx, hxr⟩
    have hpair : x = a ∧ resolveResume db x = r :=
      ⟨congrArg Prod.fst hxr, congrArg Prod.snd hxr⟩
    obtain ⟨hxa, hra⟩ := hpair
    subst hxa
    have hmem := List.mem_filter.mp (List.mem_mergeSort.mp hx)
    exact ⟨hmem.1, hmem.2, hra.symm⟩
  · rintro ⟨hmem, hms, hr⟩
    refine ⟨a, ?_, ?_⟩
    · exact List.mem_mergeSort.mpr (List.mem_filter.mpr ⟨hmem, hms⟩)
    · rw [hr]

/-- Claim C7, counterexample: the claim's substring reading of the search is
false of the program.  The backend runs `company_name ILIKE '%X%Z%'`, in
which the user-supplied `%` is a wildcard, so the application at company
"XYZ" is returned by `search_applications` for the company argument "X%Z" —
yet "XYZ" does not contain "X%Z" as a substring (case-insensitively or
otherwise). -/
theorem c7_search_substring_counterexample :
    ((⟨1, "Dev", "XYZ", ⟨2024, 1, 1⟩, "applied", none, none, none, none,
       none, none, none, none, none⟩,
      (none : Option ResumeVersion)) ∈
      search_applications
        ⟨[], [⟨1, "Dev", "XYZ", ⟨2024, 1, 1⟩, "applied", none, none, none,
              none, none, none, none, none, none⟩], 1, 2⟩
        (some "X%Z") none) ∧
    icontains "XYZ" "X%Z" = false := by
  constructor
  · exact (mem_search_applications _ _ _ _ _).mpr
      ⟨by decide, by decide, by decide⟩
  · decide

/-- Claim C7 as amended: `search_applications` returns exactly the
applications whose company name matches the SQL pattern `'%' + arg + '%'`
under case-insensitive `LIKE` semantics — `%` and `_` in the argument are
wildcards and backslash escapes — and likewise for the job title (each
condition imposed only when its argument is given, with AND semantics), each
paired with its resolved resume relation, ordered by application date
descending; for arguments containing none of `%`, `_`, `\` the pattern match
coincides with case-insensitive substring containment, as the claim words
it. -/
theorem c7_search_applications_ilike (db : DB) (c t : Option String)
    (a : JobApplication) (r : Option ResumeVersion) :
    (((a, r) ∈ search_applications db c t) ↔
      (a ∈ db.apps ∧
       (∀ s, c = some s → ilikeContains a.company_name s = true) ∧
       (∀ s, t = some s → ilikeContains a.job_title s = true) ∧
       r = resolveResume db a)) ∧
    List.Pairwise
      (fun p q => dateLe q.1.application_date p.1.application_date = true)
      (search_applications db c t) ∧
    (∀ hay needle : String,
      (∀ ch ∈ needle.data, ch ≠ '%' ∧ ch ≠ '_' ∧ ch ≠ '\\') →
      ilikeContains hay needle = icontains hay needle) := by
  refine ⟨?_, ?_, fun hay needle h => ilike_eq_icontains_of_noMeta hay needle h⟩
  · rw [mem_search_applications]
    constructor
    · rintro ⟨hmem, hms, hr⟩
      have hiff := (matchesSearch_iff c t a).mp hms
      exact ⟨hmem, hiff.1, hiff.2, hr⟩
    · rintro ⟨hmem, hc, ht, hr⟩
      exact ⟨hmem, (matchesSearch_iff c t a).mpr ⟨hc, ht⟩, hr⟩
  · unfold search_applications
    have hs := @List.sorted_mergeSort JobApplication appDateGe
      (fun x y z => appDateGe_trans x y z) appDateGe_total
      (db.apps.filter (matchesSearch c t))
    exact List.pairwise_map.mpr hs

/-- Witness for C7: the application at "TechCorp Inc" is returned by a
search for "techcorp" with no title filter, paired with its (absent) resume
relation; and on the wildcard-free needle "techcorp" the `ILIKE` match
coincides with substring containment. -/
theorem c7_search_applications_ilike_witness :
    ((⟨1, "Senior Python Developer", "TechCorp Inc", ⟨2024, 1, 1⟩, "applied",
       none, none, none, none, none, none, none, none, none⟩,
      (none : Option ResumeVersion)) ∈
      search_applications
        ⟨[], [⟨1, "Senior Python Developer", "TechCorp Inc", ⟨2024, 1, 1⟩,
              "applied", none, none, none, none, none, none, none, none,
              none⟩], 1, 2⟩
        (some "techcorp") none) ∧
    ilikeContains "TechCorp Inc" "techcorp" =
      icontains "TechCorp Inc" "techcorp" := by
  have H := c7_search_applications_ilike
    ⟨[], [⟨1, "Senior Python Developer", "TechCorp Inc", ⟨2024, 1, 1⟩,
          "applied", none, none, none, none, none, none, none, none,
          none⟩], 1, 2⟩
    (some "techcorp") none
    ⟨1, "Senior Python Developer", "TechCorp Inc", ⟨2024, 1, 1⟩, "applied",
     none, none, none, none, none, none, none, none, none⟩
    (none : Option ResumeVersion)
  constructor
  · refine H.1.mpr ⟨by decide, ?_, ?_, by decide⟩
    · intro s hs
      injection hs with h
      subst h
      decide
    · intro s hs
      simp at hs
  · exact H.2.2 "TechCorp Inc" "techcorp" (by decide)

end JobTracker
